import Mathlib

/-!
Verification of the entity-resolution core of the finance MCP server
(`finance_MCP.py`): the `match_ticker_or_name` resolver, the derived
symbol index built by dictionary reversal, the exact-name ticker lookup,
and the data-gateway ticker forwarding contract.

Strings are modelled as lists of characters; Python's `str.upper`,
`str.lower` and `str.strip` are modelled character-wise over the ASCII
range (`Char.toUpper`, `Char.toLower`, `Char.isWhitespace`), matching
the Python behaviour on the ASCII identifiers the system works with.
Python dictionaries are modelled as insertion-ordered association lists
with unique keys; `dinsert` reproduces dict assignment (replace the
value in place if the key exists, else append) and `dlookup` key access.
-/

namespace FinanceKG

/-- A Python string, modelled as its list of characters. -/
abbrev Str := List Char

/-- Python `s.upper()`, character-wise over the ASCII range. -/
def pyUpper (s : Str) : Str := s.map Char.toUpper

/-- Python `s.lower()`, character-wise over the ASCII range. -/
def pyLower (s : Str) : Str := s.map Char.toLower

/-- Python `s.strip()`: remove leading and trailing whitespace. -/
def pyStrip (s : Str) : Str :=
  ((s.dropWhile Char.isWhitespace).reverse.dropWhile Char.isWhitespace).reverse

/-- The spec's `toSymbolForm`: trim, then uppercase. This is the
normalization the resolver applies before the symbol-index lookup
(`query.strip()` followed by `.upper()`). -/
def toSymbolForm (s : Str) : Str := pyUpper (pyStrip s)

/-- A Python dict from strings to strings, modelled as its
insertion-ordered association list of `(key, value)` items. -/
abbrev Dict := List (Str × Str)

/-- Python dict key access `d[k]`, as an `Option` (`none` = `KeyError`):
the value of the first item whose key is `k`. -/
def dlookup (d : Dict) (k : Str) : Option Str :=
  match d with
  | [] => none
  | p :: rest => if p.1 = k then some p.2 else dlookup rest k

/-- Python dict assignment `d[k] = v`: replace the value in place when
the key is present, else append a new item. -/
def dinsert (d : Dict) (k v : Str) : Dict :=
  match d with
  | [] => [(k, v)]
  | p :: rest => if p.1 = k then (k, v) :: rest else p :: dinsert rest k v

/-- The keys of `d` are pairwise distinct (always true of the item list
of a real Python dict). -/
abbrev NodupKeys (d : Dict) : Prop := (d.map Prod.fst).Nodup

/-- The `symbol_to_name` dict comprehension from `match_ticker_or_name`,
which reverses the name index: iterate its items in order and assign
`d[ticker.upper()] = name`, so a later item with the same uppercased
ticker overwrites an earlier one. -/
def buildSymbolIndex (name_to_symbol : Dict) : Dict :=
  name_to_symbol.foldl (fun d p => dinsert d (pyUpper p.2) p.1) []

/-- The three shapes of message `match_ticker_or_name` returns, as a
tagged variant carrying exactly the data interpolated into each
f-string: the original `query`, and the resolved name/ticker pair when
there is one. -/
inductive ResolutionResult where
  | TickerMatch (query name ticker : Str)
  | NameMatch (query name ticker : Str)
  | NoMatch (originalInput : Str)
deriving DecidableEq

/-- The `match_ticker_or_name` tool body. `none` models an uncaught
Python exception (the only candidate being the `name_to_symbol[company_name]`
access); each `some` is one of the three returned messages.
Mirrors the source: `query_norm = query.strip()`; reverse the dict;
ticker branch keyed by `query_norm.upper()`; name branch filters
`name.lower() == query.lower()` over the *unstripped* query and takes
the first match. -/
def match_ticker_or_name (name_to_symbol : Dict) (query : Str) : Option ResolutionResult :=
  let query_norm := pyStrip query
  let symbol_to_name := buildSymbolIndex name_to_symbol
  match dlookup symbol_to_name (pyUpper query_norm) with
  | some company_name =>
      some (.TickerMatch query company_name (pyUpper query_norm))
  | none =>
      match name_to_symbol.filter (fun p => pyLower p.1 = pyLower query) with
      | [] => some (.NoMatch query)
      | p :: _ =>
          (dlookup name_to_symbol p.1).map (fun ticker => .NameMatch query p.1 ticker)

end FinanceKG

namespace FinanceKG

/-- Evaluating `Char.ofNat` at a scalar value below the surrogate range
recovers that value. -/
theorem toNat_ofNat_valid {n : Nat} (h : n < 55296) : (Char.ofNat n).toNat = n := by
  have hv : n.isValidChar := Or.inl h
  simp only [Char.ofNat, hv, dif_pos]
  rfl

/-- Lowercasing then uppercasing an ASCII character is the same as
uppercasing it directly. -/
theorem toUpper_toLower (c : Char) : c.toLower.toUpper = c.toUpper := by
  simp only [Char.toLower, Char.toUpper]
  by_cases h : c.toNat ≥ 65 ∧ c.toNat ≤ 90
  · have ht : (Char.ofNat (c.toNat + 32)).toNat = c.toNat + 32 :=
      toNat_ofNat_valid (by omega)
    rw [if_pos h, if_pos (by rw [ht]; omega), if_neg (by omega), ht]
    have h32 : c.toNat + 32 - 32 = c.toNat := by omega
    rw [h32, Char.ofNat_toNat]
  · rw [if_neg h]

/-- Uppercasing then lowercasing an ASCII character is the same as
lowercasing it directly. -/
theorem toLower_toUpper (c : Char) : c.toUpper.toLower = c.toLower := by
  simp only [Char.toLower, Char.toUpper]
  by_cases h : c.toNat ≥ 97 ∧ c.toNat ≤ 122
  · have ht : (Char.ofNat (c.toNat - 32)).toNat = c.toNat - 32 :=
      toNat_ofNat_valid (by omega)
    rw [if_pos h, if_pos (by rw [ht]; omega), if_neg (by omega), ht]
    have h32 : c.toNat - 32 + 32 = c.toNat := by omega
    rw [h32, Char.ofNat_toNat]
  · rw [if_neg h]

/-- Uppercasing is idempotent on characters. -/
theorem toUpper_toUpper (c : Char) : c.toUpper.toUpper = c.toUpper := by
  simp only [Char.toUpper]
  by_cases h : c.toNat ≥ 97 ∧ c.toNat ≤ 122
  · have ht : (Char.ofNat (c.toNat - 32)).toNat = c.toNat - 32 :=
      toNat_ofNat_valid (by omega)
    rw [if_pos h, if_neg (by rw [ht]; omega)]
  · rw [if_neg h, if_neg h]

/-- Lowercasing is idempotent on characters. -/
theorem toLower_toLower (c : Char) : c.toLower.toLower = c.toLower := by
  simp only [Char.toLower]
  by_cases h : c.toNat ≥ 65 ∧ c.toNat ≤ 90
  · have ht : (Char.ofNat (c.toNat + 32)).toNat = c.toNat + 32 :=
      toNat_ofNat_valid (by omega)
    rw [if_pos h, if_neg (by rw [ht]; omega)]
  · rw [if_neg h, if_neg h]

/-- A character whose code point exceeds 64 is not whitespace. -/
theorem isWhitespace_eq_false_of_gt64 {c : Char} (h : 64 < c.toNat) :
    c.isWhitespace = false := by
  have h1 : c ≠ ' ' := by intro e; subst e; exact absurd h (by decide)
  have h2 : c ≠ '\t' := by intro e; subst e; exact absurd h (by decide)
  have h3 : c ≠ '\r' := by intro e; subst e; exact absurd h (by decide)
  have h4 : c ≠ '\n' := by intro e; subst e; exact absurd h (by decide)
  simp [Char.isWhitespace, h1, h2, h3, h4]

/-- Lowercasing does not change whether a character is whitespace. -/
theorem isWhitespace_toLower (c : Char) : c.toLower.isWhitespace = c.isWhitespace := by
  simp only [Char.toLower]
  by_cases h : c.toNat ≥ 65 ∧ c.toNat ≤ 90
  · have ht : (Char.ofNat (c.toNat + 32)).toNat = c.toNat + 32 :=
      toNat_ofNat_valid (by omega)
    rw [if_pos h, isWhitespace_eq_false_of_gt64 (by rw [ht]; omega),
      isWhitespace_eq_false_of_gt64 (by omega)]
  · rw [if_neg h]

/-- Uppercasing does not change whether a character is whitespace. -/
theorem isWhitespace_toUpper (c : Char) : c.toUpper.isWhitespace = c.isWhitespace := by
  simp only [Char.toUpper]
  by_cases h : c.toNat ≥ 97 ∧ c.toNat ≤ 122
  · have ht : (Char.ofNat (c.toNat - 32)).toNat = c.toNat - 32 :=
      toNat_ofNat_valid (by omega)
    rw [if_pos h, isWhitespace_eq_false_of_gt64 (by rw [ht]; omega),
      isWhitespace_eq_false_of_gt64 (by omega)]
  · rw [if_neg h]

/-- Lowercasing then uppercasing a string is the same as uppercasing it. -/
theorem pyUpper_pyLower (s : Str) : pyUpper (pyLower s) = pyUpper s := by
  simp only [pyUpper, pyLower, List.map_map]
  exact List.map_congr_left fun c _ => toUpper_toLower c

/-- Uppercasing then lowercasing a string is the same as lowercasing it. -/
theorem pyLower_pyUpper (s : Str) : pyLower (pyUpper s) = pyLower s := by
  simp only [pyUpper, pyLower, List.map_map]
  exact List.map_congr_left fun c _ => toLower_toUpper c

/-- Uppercasing a string is idempotent. -/
theorem pyUpper_pyUpper (s : Str) : pyUpper (pyUpper s) = pyUpper s := by
  simp only [pyUpper, List.map_map]
  exact List.map_congr_left fun c _ => toUpper_toUpper c

/-- Lowercasing a string is idempotent. -/
theorem pyLower_pyLower (s : Str) : pyLower (pyLower s) = pyLower s := by
  simp only [pyLower, List.map_map]
  exact List.map_congr_left fun c _ => toLower_toLower c

/-- Stripping commutes with any character map that preserves
whitespace-ness. -/
theorem pyStrip_map (f : Char → Char) (hf : ∀ c, (f c).isWhitespace = c.isWhitespace)
    (s : Str) : pyStrip (s.map f) = (pyStrip s).map f := by
  have hcomp : Char.isWhitespace ∘ f = Char.isWhitespace := funext hf
  simp only [pyStrip]
  rw [List.dropWhile_map, hcomp, ← List.map_reverse, List.dropWhile_map, hcomp,
    ← List.map_reverse]

/-- Stripping commutes with lowercasing. -/
theorem pyStrip_pyLower (s : Str) : pyStrip (pyLower s) = pyLower (pyStrip s) :=
  pyStrip_map Char.toLower isWhitespace_toLower s

/-- Stripping commutes with uppercasing. -/
theorem pyStrip_pyUpper (s : Str) : pyStrip (pyUpper s) = pyUpper (pyStrip s) :=
  pyStrip_map Char.toUpper isWhitespace_toUpper s

/-- Stripping discards a leading space. -/
theorem pyStrip_cons_space (s : Str) : pyStrip (' ' :: s) = pyStrip s := by
  simp [pyStrip, List.dropWhile_cons]

/-- Stripping discards a trailing space. -/
theorem pyStrip_append_space (s : Str) : pyStrip (s ++ [' ']) = pyStrip s := by
  simp only [pyStrip, List.dropWhile_append]
  by_cases h : (s.dropWhile Char.isWhitespace).isEmpty
  · rw [if_pos h]
    rw [List.isEmpty_iff] at h
    rw [h]
    rfl
  · rw [if_neg h]
    rw [List.isEmpty_iff] at h
    rw [List.reverse_append]
    simp [List.dropWhile_cons]

/-- Looking a key up after a dict assignment: the assigned key now maps
to the assigned value, every other key is unaffected. -/
theorem dlookup_dinsert (d : Dict) (k v s : Str) :
    dlookup (dinsert d k v) s = if k = s then some v else dlookup d s := by
  induction d with
  | nil => simp [dinsert, dlookup]
  | cons p rest ih =>
    by_cases hpk : p.1 = k
    · simp only [dinsert, if_pos hpk, dlookup]
      by_cases hks : k = s
      · simp [hks]
      · simp only [if_neg hks]
        rw [if_neg (by rw [hpk]; exact hks)]
    · simp only [dinsert, if_neg hpk, dlookup, ih]
      by_cases hks : k = s
      · rw [if_pos hks, if_pos hks, if_neg (by rw [hks] at hpk; exact hpk)]
      · rw [if_neg hks, if_neg hks]

/-- Folding dict assignments `d[p.ticker.upper()] = p.name` over a list:
the resulting binding for `s` comes from the last item whose uppercased
ticker is `s`, and falls back to the accumulator otherwise. -/
theorem dlookup_foldl_dinsert (l : Dict) (acc : Dict) (s : Str) :
    dlookup (l.foldl (fun d p => dinsert d (pyUpper p.2) p.1) acc) s =
      ((l.reverse.find? (fun p => decide (pyUpper p.2 = s))).map Prod.fst).or
        (dlookup acc s) := by
  induction l generalizing acc with
  | nil => simp
  | cons p rest ih =>
    simp only [List.foldl_cons, ih, dlookup_dinsert, List.reverse_cons, List.find?_append]
    cases hfind : rest.reverse.find? (fun p => decide (pyUpper p.2 = s)) with
    | some q => simp
    | none =>
      by_cases hps : pyUpper p.2 = s
      · simp [List.find?, hps]
      · simp [List.find?, hps]

/-- The binding of `s` in the reversed symbol dictionary comes from the
last name-index item whose uppercased ticker equals `s` (later items
overwrite earlier ones), and is absent when no item matches. -/
theorem dlookup_buildSymbolIndex (nd : Dict) (s : Str) :
    dlookup (buildSymbolIndex nd) s =
      (nd.reverse.find? (fun p => decide (pyUpper p.2 = s))).map Prod.fst := by
  rw [buildSymbolIndex, dlookup_foldl_dinsert]
  simp [dlookup]

/-- A key absent from every item of a dict looks up to nothing. -/
theorem dlookup_eq_none_iff (d : Dict) (k : Str) :
    dlookup d k = none ↔ ∀ p ∈ d, p.1 ≠ k := by
  induction d with
  | nil => simp [dlookup]
  | cons p rest ih =>
    simp only [dlookup, List.mem_cons]
    by_cases hpk : p.1 = k
    · simp [hpk]
    · simp only [if_neg hpk, ih]
      constructor
      · intro h q hq
        rcases hq with hq | hq
        · rw [hq]; exact hpk
        · exact h q hq
      · intro h q hq
        exact h q (Or.inr hq)

/-- A key that occurs in a dict looks up to some value. -/
theorem dlookup_isSome_of_mem {d : Dict} {k v : Str} (h : (k, v) ∈ d) :
    ∃ t, dlookup d k = some t := by
  cases ht : dlookup d k with
  | some t => exact ⟨t, rfl⟩
  | none =>
    rw [dlookup_eq_none_iff] at ht
    exact absurd rfl (ht (k, v) h)

/-- With pairwise-distinct keys, a dict item looks up to its own value. -/
theorem dlookup_of_mem_nodup {d : Dict} (hnodup : NodupKeys d) {k v : Str}
    (h : (k, v) ∈ d) : dlookup d k = some v := by
  induction d with
  | nil => exact absurd h (List.not_mem_nil _)
  | cons p rest ih =>
    rw [NodupKeys, List.map_cons, List.nodup_cons] at hnodup
    rcases List.mem_cons.mp h with hh | hh
    · rw [← hh, dlookup, if_pos rfl]
    · have hpk : p.1 ≠ k := by
        intro e
        exact hnodup.1 (e ▸ List.mem_map_of_mem Prod.fst hh)
      rw [dlookup, if_neg hpk]
      exact ih hnodup.2 hh

/-- A successful dict lookup comes from an item of the dict. -/
theorem mem_of_dlookup_eq_some {d : Dict} {k v : Str} (h : dlookup d k = some v) :
    (k, v) ∈ d := by
  induction d with
  | nil => exact absurd h (by simp [dlookup])
  | cons p rest ih =>
    rw [dlookup] at h
    by_cases hpk : p.1 = k
    · rw [if_pos hpk] at h
      exact List.mem_cons.mpr (Or.inl (by rw [← hpk, ← Option.some_inj.mp h]))
    · exact List.mem_cons.mpr (Or.inr (ih (by rwa [if_neg hpk] at h)))

/-- Error signalled by `get_ticker_by_name` when the exact company name
is absent from the name index. -/
inductive NotFoundError where
  | notFound
deriving DecidableEq

/-- Modelled from the spec: `FinanceKG.get_ticker_by_name` — the class
`FinanceKG` lives in `finance.py`, which is not among the sources; only
its caller `finance_MCP.py` is. Spec §4.3: look the company name up as
an exact, case-sensitive key in the NameIndex and return its ticker;
signal `NotFoundError` when the exact name is absent. The MCP tool
`get_ticker_by_name` (in the sources) forwards its argument to this
method unchanged. -/
def get_ticker_by_name (name_to_symbol : Dict) (company_name : Str) :
    Except NotFoundError Str :=
  match dlookup name_to_symbol company_name with
  | some t => Except.ok t
  | none => Except.error NotFoundError.notFound

/-- Modelled from the spec: the `FinanceKG` data-access methods
(`finance.py`, not among the sources) — §4.4: each accepts a ticker
string, normalizes it to symbol form (trimmed, uppercased) and forwards
the normalized form to the external data source. The external source is
abstracted as a function from the forwarded symbol to its payload. -/
def kgFetch {α : Type} (source : Str → α) (ticker : Str) : α :=
  source (toSymbolForm ticker)

/-- The `get_price_history` tool (from the sources): forwards its raw
`ticker_name` argument to `kg.get_price_history`. -/
def get_price_history {α : Type} (source : Str → α) (ticker_name : Str) : α :=
  kgFetch source ticker_name

/-- The `get_detailed_price_history` tool (from the sources): forwards
its raw `ticker_name` argument to `kg.get_detailed_price_history`. -/
def get_detailed_price_history {α : Type} (source : Str → α) (ticker_name : Str) : α :=
  kgFetch source ticker_name

/-- The `get_dividends_history` tool (from the sources): forwards its
raw `ticker_name` argument to `kg.get_dividends_history`. -/
def get_dividends_history {α : Type} (source : Str → α) (ticker_name : Str) : α :=
  kgFetch source ticker_name

/-- The `get_market_capitalization` tool (from the sources): forwards
its raw `ticker_name` argument to `kg.get_market_capitalization`. -/
def get_market_capitalization {α : Type} (source : Str → α) (ticker_name : Str) : α :=
  kgFetch source ticker_name

/-- The `get_eps` tool (from the sources): forwards its raw
`ticker_name` argument to `kg.get_eps`. -/
def get_eps {α : Type} (source : Str → α) (ticker_name : Str) : α :=
  kgFetch source ticker_name

/-- The `get_pe_ratio` tool (from the sources): forwards its raw
`ticker_name` argument to `kg.get_pe_ratio`. -/
def get_pe_ratio {α : Type} (source : Str → α) (ticker_name : Str) : α :=
  kgFetch source ticker_name

/-- The `get_info` tool (from the sources): forwards its raw
`ticker_name` argument to `kg.get_info`. -/
def get_info {α : Type} (source : Str → α) (ticker_name : Str) : α :=
  kgFetch source ticker_name

/-- When the symbol-index lookup succeeds the resolver takes the ticker
branch: it returns the ticker-symbol message built from the matched
name and the normalized symbol. -/
theorem ticker_branch {nd : Dict} {q name : Str}
    (h : dlookup (buildSymbolIndex nd) (pyUpper (pyStrip q)) = some name) :
    match_ticker_or_name nd q
      = some (.TickerMatch q name (pyUpper (pyStrip q))) := by
  simp only [match_ticker_or_name]
  rw [h]

/-- When the symbol-index lookup fails and the case-insensitive name
scan is non-empty, the resolver returns the company-name message built
from the first matching item. -/
theorem name_branch {nd : Dict} {q : Str} {p : Str × Str} {rest : Dict}
    (hsym : dlookup (buildSymbolIndex nd) (pyUpper (pyStrip q)) = none)
    (hfil : nd.filter (fun r => pyLower r.1 = pyLower q) = p :: rest) :
    match_ticker_or_name nd q
      = (dlookup nd p.1).map (fun ticker => .NameMatch q p.1 ticker) := by
  simp only [match_ticker_or_name]
  rw [hsym, hfil]

/-- When the symbol-index lookup fails and the case-insensitive name
scan is empty, the resolver returns the not-recognized message. -/
theorem nomatch_branch {nd : Dict} {q : Str}
    (hsym : dlookup (buildSymbolIndex nd) (pyUpper (pyStrip q)) = none)
    (hfil : nd.filter (fun r => pyLower r.1 = pyLower q) = []) :
    match_ticker_or_name nd q = some (.NoMatch q) := by
  simp only [match_ticker_or_name]
  rw [hsym, hfil]

/-- When an element satisfying the predicate occurs in the list and is
the only one doing so, `find?` returns it. -/
theorem find?_eq_some_of_unique {l : List (Str × Str)} {pred : Str × Str → Bool}
    {p : Str × Str} (hmem : p ∈ l) (hp : pred p = true)
    (huniq : ∀ q ∈ l, pred q = true → q = p) : l.find? pred = some p := by
  induction l with
  | nil => exact absurd hmem (List.not_mem_nil _)
  | cons a t ih =>
    cases ha : pred a with
    | true =>
      rw [List.find?_cons_of_pos t ha]
      rw [huniq a (List.mem_cons_self a t) ha]
    | false =>
      rw [List.find?_cons_of_neg t (by simp [ha])]
      rcases List.mem_cons.mp hmem with hh | hh
      · rw [hh] at hp
        rw [hp] at ha
        exact absurd ha (by simp)
      · exact ih hh fun q hq hpq => huniq q (List.mem_cons_of_mem a hq) hpq

/-- When no item of the name index has an uppercased ticker equal to
the query's symbol form, the symbol-index lookup misses. -/
theorem symbol_lookup_none {nd : Dict} {q : Str}
    (hticker : ∀ r ∈ nd, pyUpper (pyStrip q) ≠ pyUpper r.2) :
    dlookup (buildSymbolIndex nd) (pyUpper (pyStrip q)) = none := by
  rw [dlookup_buildSymbolIndex]
  have hfind : nd.reverse.find? (fun p => decide (pyUpper p.2 = pyUpper (pyStrip q))) = none := by
    rw [List.find?_eq_none]
    intro x hx h
    exact hticker x (List.mem_reverse.mp hx) (of_decide_eq_true h).symm
  rw [hfind]
  rfl

/-- C4: for any input that matches neither a stored ticker (via the
resolver's trim-and-uppercase symbol comparison) nor a stored name
(case-insensitively), `match_ticker_or_name` returns the not-recognized
message carrying the original, unmodified input — a normal returned
value (`some`), never an exception. -/
theorem C4_unrecognized_input (nd : Dict) (q : Str)
    (hticker : ∀ r ∈ nd, pyUpper (pyStrip q) ≠ pyUpper r.2)
    (hname : ∀ r ∈ nd, pyLower r.1 ≠ pyLower q) :
    match_ticker_or_name nd q = some (.NoMatch q) := by
  have hfil : nd.filter (fun r => pyLower r.1 = pyLower q) = [] :=
    List.filter_eq_nil_iff.mpr fun r hr => by
      simpa using hname r hr
  exact nomatch_branch (symbol_lookup_none hticker) hfil

/-- Witness for C4 at the spec's own scenario: the query `"Tesla"` with
the Tesla/Microsoft index resolves to the not-recognized message. -/
theorem C4_unrecognized_input_witness :
    (∀ r ∈ ([("Tesla Inc. Common Stock".data, "TSLA".data),
             ("Microsoft Corporation Common Stock".data, "MSFT".data)] : Dict),
      pyUpper (pyStrip "Tesla".data) ≠ pyUpper r.2) ∧
    (∀ r ∈ ([("Tesla Inc. Common Stock".data, "TSLA".data),
             ("Microsoft Corporation Common Stock".data, "MSFT".data)] : Dict),
      pyLower r.1 ≠ pyLower "Tesla".data) ∧
    match_ticker_or_name
      [("Tesla Inc. Common Stock".data, "TSLA".data),
       ("Microsoft Corporation Common Stock".data, "MSFT".data)] "Tesla".data
      = some (.NoMatch "Tesla".data) :=
  ⟨by decide, by decide, C4_unrecognized_input _ _ (by decide) (by decide)⟩

/-- C5: every Data Gateway operation forwards the symbol form (trimmed,
uppercased) of its ticker argument — not the raw argument — to the
external data source, abstracted here as the function `source`. -/
theorem C5_gateway_forwards_symbol_form {α : Type} (source : Str → α) (t : Str) :
    get_price_history source t = source (toSymbolForm t) ∧
    get_detailed_price_history source t = source (toSymbolForm t) ∧
    get_dividends_history source t = source (toSymbolForm t) ∧
    get_market_capitalization source t = source (toSymbolForm t) ∧
    get_eps source t = source (toSymbolForm t) ∧
    get_pe_ratio source t = source (toSymbolForm t) ∧
    get_info source t = source (toSymbolForm t) :=
  ⟨rfl, rfl, rfl, rfl, rfl, rfl, rfl⟩

/-- Witness for C5 at a concrete input: with the external source
abstracted as the identity function, the gateway operations applied to
the raw `" tsla "` receive the normalized `"TSLA"`. -/
theorem C5_gateway_forwards_symbol_form_witness :
    get_price_history (fun s => s) " tsla ".data = "TSLA".data ∧
    get_info (fun s => s) " tsla ".data = "TSLA".data := by
  constructor
  · rw [(C5_gateway_forwards_symbol_form (fun s => s) " tsla ".data).1]
    decide
  · rw [(C5_gateway_forwards_symbol_form (fun s => s) " tsla ".data).2.2.2.2.2.2]
    decide

/-- C6: `get_ticker_by_name` is an exact, case-sensitive key lookup:
for a stored name (with the dict's unique keys) it returns exactly the
ticker inserted for that name, and for any name that is not a stored
key — case variants of stored names included — it signals
`NotFoundError` instead of returning a ticker. -/
theorem C6_get_ticker_by_name_exact (nd : Dict) (n : Str) :
    (NodupKeys nd → ∀ t, (n, t) ∈ nd →
      get_ticker_by_name nd n = Except.ok t) ∧
    ((∀ p ∈ nd, p.1 ≠ n) →
      get_ticker_by_name nd n = Except.error NotFoundError.notFound) := by
  constructor
  · intro hnod t hmem
    unfold get_ticker_by_name
    rw [dlookup_of_mem_nodup hnod hmem]
  · intro habs
    unfold get_ticker_by_name
    rw [(dlookup_eq_none_iff nd n).mpr habs]

/-- Witness for C6 at the spec's scenario: the exact stored name
`"Microsoft Corporation Common Stock"` yields `"MSFT"`, while the
non-stored `"Microsoft"` signals `NotFoundError`. -/
theorem C6_get_ticker_by_name_exact_witness :
    get_ticker_by_name
      [("Tesla Inc. Common Stock".data, "TSLA".data),
       ("Microsoft Corporation Common Stock".data, "MSFT".data)]
      "Microsoft Corporation Common Stock".data = Except.ok "MSFT".data ∧
    get_ticker_by_name
      [("Tesla Inc. Common Stock".data, "TSLA".data),
       ("Microsoft Corporation Common Stock".data, "MSFT".data)]
      "Microsoft".data = Except.error NotFoundError.notFound :=
  ⟨(C6_get_ticker_by_name_exact _ _).1 (by decide) _ (by decide),
   (C6_get_ticker_by_name_exact _ _).2 (by decide)⟩

/-- With pairwise-distinct uppercased tickers, the symbol-index lookup
at a stored item's uppercased ticker yields exactly that item's name. -/
theorem symbol_lookup_of_mem {nd : Dict} {p : Str × Str}
    (hnodup : (nd.map fun r => pyUpper r.2).Nodup) (hp : p ∈ nd) :
    dlookup (buildSymbolIndex nd) (pyUpper p.2) = some p.1 := by
  rw [dlookup_buildSymbolIndex]
  have hfind : nd.reverse.find? (fun r => decide (pyUpper r.2 = pyUpper p.2)) = some p := by
    apply find?_eq_some_of_unique (List.mem_reverse.mpr hp) (by simp)
    intro r hr hpred
    exact List.inj_on_of_nodup_map hnodup (List.mem_reverse.mp hr) hp
      (of_decide_eq_true hpred)
  rw [hfind]
  rfl

/-- C3: ticker precedence — when the query's symbol form equals the
uppercased ticker of a stored entity and the query also equals,
case-insensitively, the stored name of a different entity, the resolver
returns the ticker-symbol message for the ticker entity (the symbol
check runs first; the name scan is never reached), not the company-name
message. The uppercased tickers are assumed pairwise distinct, the
index invariant of the data model. -/
theorem C3_ticker_precedence (nd : Dict) (q : Str) (p p2 : Str × Str)
    (hnodup : (nd.map fun r => pyUpper r.2).Nodup)
    (hp : p ∈ nd) (hq : pyUpper (pyStrip q) = pyUpper p.2)
    (hp2 : p2 ∈ nd) (hne : p2 ≠ p) (hname : pyLower p2.1 = pyLower q) :
    match_ticker_or_name nd q
      = some (.TickerMatch q p.1 (pyUpper (pyStrip q))) := by
  have hlook : dlookup (buildSymbolIndex nd) (pyUpper (pyStrip q)) = some p.1 := by
    rw [hq]
    exact symbol_lookup_of_mem hnodup hp
  exact ticker_branch hlook

/-- Witness for C3: the query `"AAA"` is the ticker of the Tesla entity
and, case-insensitively, the name `"aaa"` of the other entity; the
resolver returns the ticker match for Tesla. -/
theorem C3_ticker_precedence_witness :
    ("Tesla".data, "AAA".data) ∈ ([("Tesla".data, "AAA".data), ("aaa".data, "BBB".data)] : Dict) ∧
    ("aaa".data, "BBB".data) ∈ ([("Tesla".data, "AAA".data), ("aaa".data, "BBB".data)] : Dict) ∧
    pyLower "aaa".data = pyLower "AAA".data ∧
    match_ticker_or_name [("Tesla".data, "AAA".data), ("aaa".data, "BBB".data)] "AAA".data
      = some (.TickerMatch "AAA".data "Tesla".data "AAA".data) := by
  refine ⟨by decide, by decide, by decide, ?_⟩
  have h := C3_ticker_precedence
    [("Tesla".data, "AAA".data), ("aaa".data, "BBB".data)] "AAA".data
    ("Tesla".data, "AAA".data) ("aaa".data, "BBB".data)
    (by decide) (by decide) (by decide) (by decide) (by decide) (by decide)
  rw [h]
  decide

/-- C7: under the invariant that no two items share an uppercased
ticker, the symbol index inverts the name index exactly — it maps each
item's uppercased ticker to that item's name and holds no other keys;
without the invariant, among items sharing an uppercased ticker the one
iterated later silently overwrites the earlier: the lookup returns the
last such item's name. -/
theorem C7_symbol_index_inverse (nd : Dict) :
    ((nd.map fun r => pyUpper r.2).Nodup →
      (∀ p ∈ nd, dlookup (buildSymbolIndex nd) (pyUpper p.2) = some p.1) ∧
      (∀ s name, dlookup (buildSymbolIndex nd) s = some name →
        ∃ p ∈ nd, pyUpper p.2 = s ∧ p.1 = name)) ∧
    (∀ nd1 p nd2 q2 nd3, nd = nd1 ++ p :: (nd2 ++ q2 :: nd3) →
      pyUpper p.2 = pyUpper q2.2 →
      (∀ r ∈ nd3, pyUpper r.2 ≠ pyUpper q2.2) →
      dlookup (buildSymbolIndex nd) (pyUpper p.2) = some q2.1) := by
  constructor
  · intro hnodup
    constructor
    · intro p hp
      exact symbol_lookup_of_mem hnodup hp
    · intro s name hlook
      rw [dlookup_buildSymbolIndex] at hlook
      cases hfind : nd.reverse.find? (fun r => decide (pyUpper r.2 = s)) with
      | none =>
        rw [hfind] at hlook
        exact absurd hlook (by simp)
      | some r =>
        rw [hfind] at hlook
        have hpr : pyUpper r.2 = s := by
          have hb := List.find?_some hfind
          simpa using hb
        exact ⟨r, List.mem_reverse.mp (List.mem_of_find?_eq_some hfind), hpr,
          by simpa using hlook⟩
  · intro nd1 p nd2 q2 nd3 hnd hupper hlast
    subst hnd
    rw [dlookup_buildSymbolIndex]
    have h3 : nd3.reverse.find? (fun r => decide (pyUpper r.2 = pyUpper p.2)) = none := by
      rw [List.find?_eq_none]
      intro x hx hpx
      exact hlast x (List.mem_reverse.mp hx) ((of_decide_eq_true hpx).trans hupper)
    have hq2 : List.find? (fun r => decide (pyUpper r.2 = pyUpper p.2)) [q2] = some q2 := by
      simp [List.find?_cons, hupper]
    have hfind :
        (nd1 ++ p :: (nd2 ++ q2 :: nd3)).reverse.find?
          (fun r => decide (pyUpper r.2 = pyUpper p.2)) = some q2 := by
      simp only [List.reverse_append, List.reverse_cons, List.append_assoc,
        List.find?_append, h3, Option.none_or]
      rw [hq2]
      rfl
    rw [hfind]
    rfl

/-- Witness for C7: with distinct uppercased tickers the symbol index
maps `"TSLA"` back to the Tesla name; with colliding tickers `"x"` and
`"X"` the later item `("B", "X")` wins the key `"X"`. -/
theorem C7_symbol_index_inverse_witness :
    dlookup (buildSymbolIndex
        [("Tesla Inc. Common Stock".data, "TSLA".data),
         ("Microsoft Corporation Common Stock".data, "MSFT".data)])
      (pyUpper "TSLA".data) = some "Tesla Inc. Common Stock".data ∧
    dlookup (buildSymbolIndex [("A".data, "x".data), ("B".data, "X".data)])
      (pyUpper "x".data) = some "B".data :=
  ⟨((C7_symbol_index_inverse
        [("Tesla Inc. Common Stock".data, "TSLA".data),
         ("Microsoft Corporation Common Stock".data, "MSFT".data)]).1 (by decide)).1
      ("Tesla Inc. Common Stock".data, "TSLA".data) (by decide),
   (C7_symbol_index_inverse [("A".data, "x".data), ("B".data, "X".data)]).2
     [] ("A".data, "x".data) [] ("B".data, "X".data) [] rfl (by decide) (by decide)⟩

/-- Counterexample to C1 as stated: a ticker stored with a leading
space. For the index mapping name `"N"` to ticker `" T"`, the stored
ticker `" T"` itself is trimmed to `"T"` before the symbol lookup,
which therefore misses the key `" T"`, and the resolver returns the
not-recognized message instead of the ticker match the claim
requires. -/
theorem C1_counterexample :
    " T".data ∈ ([("N".data, " T".data)] : Dict).map Prod.snd ∧
    match_ticker_or_name [("N".data, " T".data)] " T".data
      = some (.NoMatch " T".data) :=
  ⟨by decide, by decide⟩

/-- C1 (amended): for every ticker stored in the index that carries no
leading or trailing whitespace, `match_ticker_or_name` applied to the
ticker, to its lowercasing, and to the ticker padded with one space on
each side each returns a ticker-symbol match carrying the same
canonical company name, because the query is trimmed and uppercased
before the symbol-index lookup. -/
theorem C1_ticker_resolution (nd : Dict) (p : Str × Str) (hmem : p ∈ nd)
    (hstrip : pyStrip p.2 = p.2) :
    ∃ name,
      match_ticker_or_name nd p.2
        = some (.TickerMatch p.2 name (pyUpper p.2)) ∧
      match_ticker_or_name nd (pyLower p.2)
        = some (.TickerMatch (pyLower p.2) name (pyUpper p.2)) ∧
      match_ticker_or_name nd (' ' :: p.2 ++ [' '])
        = some (.TickerMatch (' ' :: p.2 ++ [' ']) name (pyUpper p.2)) := by
  have hsome : (nd.reverse.find? (fun r => decide (pyUpper r.2 = pyUpper p.2))).isSome := by
    rw [List.find?_isSome]
    exact ⟨p, List.mem_reverse.mpr hmem, by simp⟩
  obtain ⟨r, hr⟩ := Option.isSome_iff_exists.mp hsome
  have hlook : dlookup (buildSymbolIndex nd) (pyUpper p.2) = some r.1 := by
    rw [dlookup_buildSymbolIndex, hr]
    rfl
  have h1 : pyUpper (pyStrip p.2) = pyUpper p.2 := by rw [hstrip]
  have h2 : pyUpper (pyStrip (pyLower p.2)) = pyUpper p.2 := by
    rw [pyStrip_pyLower, hstrip, pyUpper_pyLower]
  have h3 : pyUpper (pyStrip (' ' :: p.2 ++ [' '])) = pyUpper p.2 := by
    rw [pyStrip_append_space, pyStrip_cons_space, hstrip]
  refine ⟨r.1, ?_, ?_, ?_⟩
  · have hs1 : dlookup (buildSymbolIndex nd) (pyUpper (pyStrip p.2)) = some r.1 := by
      rw [h1]
      exact hlook
    have tb := ticker_branch hs1
    rw [h1] at tb
    exact tb
  · have hs2 : dlookup (buildSymbolIndex nd) (pyUpper (pyStrip (pyLower p.2))) = some r.1 := by
      rw [h2]
      exact hlook
    have tb := ticker_branch hs2
    rw [h2] at tb
    exact tb
  · have hs3 : dlookup (buildSymbolIndex nd) (pyUpper (pyStrip (' ' :: p.2 ++ [' ']))) = some r.1 := by
      rw [h3]
      exact hlook
    have tb := ticker_branch hs3
    rw [h3] at tb
    exact tb

/-- Witness for C1: the stored ticker `"TSLA"`, its lowercasing and its
space-padded form all resolve to a ticker match with the same canonical
name. -/
theorem C1_ticker_resolution_witness :
    ("Tesla Inc. Common Stock".data, "TSLA".data) ∈
      ([("Tesla Inc. Common Stock".data, "TSLA".data)] : Dict) ∧
    pyStrip "TSLA".data = "TSLA".data ∧
    ∃ name,
      match_ticker_or_name [("Tesla Inc. Common Stock".data, "TSLA".data)] "TSLA".data
        = some (.TickerMatch "TSLA".data name (pyUpper "TSLA".data)) ∧
      match_ticker_or_name [("Tesla Inc. Common Stock".data, "TSLA".data)]
          (pyLower "TSLA".data)
        = some (.TickerMatch (pyLower "TSLA".data) name (pyUpper "TSLA".data)) ∧
      match_ticker_or_name [("Tesla Inc. Common Stock".data, "TSLA".data)]
          (' ' :: "TSLA".data ++ [' '])
        = some (.TickerMatch (' ' :: "TSLA".data ++ [' ']) name (pyUpper "TSLA".data)) :=
  ⟨by decide, by decide,
   C1_ticker_resolution [("Tesla Inc. Common Stock".data, "TSLA".data)]
     ("Tesla Inc. Common Stock".data, "TSLA".data) (by decide) (by decide)⟩

/-- Counterexample to C2 as stated: a stored company name that collides
with another entity's ticker. In the index mapping the name
`"Tesla Inc"` to ticker `"TSLA"` and the name `"TSLA"` to ticker
`"ZZZ"`, resolving the stored name `"TSLA"` hits the symbol check
first, so the resolver returns a ticker-symbol match (for the Tesla
entity), not the company-name match the claim requires. -/
theorem C2_counterexample :
    ("TSLA".data, "ZZZ".data) ∈
      ([("Tesla Inc".data, "TSLA".data), ("TSLA".data, "ZZZ".data)] : Dict) ∧
    match_ticker_or_name
      [("Tesla Inc".data, "TSLA".data), ("TSLA".data, "ZZZ".data)] "TSLA".data
      = some (.TickerMatch "TSLA".data "Tesla Inc".data "TSLA".data) :=
  ⟨by decide, by decide⟩

/-- C2 (amended): for every company name stored in the index whose
symbol form (trimmed, uppercased) is not a stored uppercased ticker,
`match_ticker_or_name` applied to the name returns a company-name
match, and applied to its uppercasing and lowercasing returns the same
company-name match — the same stored name and its associated ticker —
because name comparison is case-insensitive. -/
theorem C2_name_resolution (nd : Dict) (p : Str × Str) (hmem : p ∈ nd)
    (hnotick : ∀ r ∈ nd, pyUpper (pyStrip p.1) ≠ pyUpper r.2) :
    ∃ name ticker, (name, ticker) ∈ nd ∧
      match_ticker_or_name nd p.1
        = some (.NameMatch p.1 name ticker) ∧
      match_ticker_or_name nd (pyUpper p.1)
        = some (.NameMatch (pyUpper p.1) name ticker) ∧
      match_ticker_or_name nd (pyLower p.1)
        = some (.NameMatch (pyLower p.1) name ticker) := by
  have hsym1 : dlookup (buildSymbolIndex nd) (pyUpper (pyStrip p.1)) = none :=
    symbol_lookup_none hnotick
  have hsym2 : dlookup (buildSymbolIndex nd) (pyUpper (pyStrip (pyUpper p.1))) = none := by
    rw [pyStrip_pyUpper, pyUpper_pyUpper]
    exact hsym1
  have hsym3 : dlookup (buildSymbolIndex nd) (pyUpper (pyStrip (pyLower p.1))) = none := by
    rw [pyStrip_pyLower, pyUpper_pyLower]
    exact hsym1
  have hpF : p ∈ nd.filter (fun r => pyLower r.1 = pyLower p.1) :=
    List.mem_filter.mpr ⟨hmem, by simp⟩
  cases hF : nd.filter (fun r => pyLower r.1 = pyLower p.1) with
  | nil =>
    rw [hF] at hpF
    exact absurd hpF (List.not_mem_nil p)
  | cons p0 rest =>
    have hp0nd : p0 ∈ nd :=
      List.mem_of_mem_filter (hF ▸ List.mem_cons_self p0 rest)
    obtain ⟨t, ht⟩ : ∃ t, dlookup nd p0.1 = some t :=
      dlookup_isSome_of_mem (show (p0.1, p0.2) ∈ nd from hp0nd)
    have hmemnt : (p0.1, t) ∈ nd := mem_of_dlookup_eq_some ht
    refine ⟨p0.1, t, hmemnt, ?_, ?_, ?_⟩
    · have nb := name_branch hsym1 hF
      rw [ht] at nb
      exact nb
    · have hF2 : nd.filter (fun r => pyLower r.1 = pyLower (pyUpper p.1)) = p0 :: rest := by
        rw [pyLower_pyUpper]
        exact hF
      have nb := name_branch hsym2 hF2
      rw [ht] at nb
      exact nb
    · have hF3 : nd.filter (fun r => pyLower r.1 = pyLower (pyLower p.1)) = p0 :: rest := by
        rw [pyLower_pyLower]
        exact hF
      have nb := name_branch hsym3 hF3
      rw [ht] at nb
      exact nb

/-- Witness for C2: the stored name `"Tesla Inc. Common Stock"` (whose
symbol form is not a stored ticker), its uppercasing and its
lowercasing all resolve to the same company-name match. -/
theorem C2_name_resolution_witness :
    ("Tesla Inc. Common Stock".data, "TSLA".data) ∈
      ([("Tesla Inc. Common Stock".data, "TSLA".data)] : Dict) ∧
    (∀ r ∈ ([("Tesla Inc. Common Stock".data, "TSLA".data)] : Dict),
      pyUpper (pyStrip "Tesla Inc. Common Stock".data) ≠ pyUpper r.2) ∧
    ∃ name ticker, (name, ticker) ∈ ([("Tesla Inc. Common Stock".data, "TSLA".data)] : Dict) ∧
      match_ticker_or_name [("Tesla Inc. Common Stock".data, "TSLA".data)]
          "Tesla Inc. Common Stock".data
        = some (.NameMatch "Tesla Inc. Common Stock".data name ticker) ∧
      match_ticker_or_name [("Tesla Inc. Common Stock".data, "TSLA".data)]
          (pyUpper "Tesla Inc. Common Stock".data)
        = some (.NameMatch (pyUpper "Tesla Inc. Common Stock".data) name ticker) ∧
      match_ticker_or_name [("Tesla Inc. Common Stock".data, "TSLA".data)]
          (pyLower "Tesla Inc. Common Stock".data)
        = some (.NameMatch (pyLower "Tesla Inc. Common Stock".data) name ticker) :=
  ⟨by decide, by decide,
   C2_name_resolution [("Tesla Inc. Common Stock".data, "TSLA".data)]
     ("Tesla Inc. Common Stock".data, "TSLA".data) (by decide) (by decide)⟩

/-- C8: `match_ticker_or_name` is deterministic — it is a pure function
of the read-only index and the query, so two calls with identical input
return identical results. -/
theorem C8_resolver_deterministic (nd : Dict) (q : Str) :
    match_ticker_or_name nd q = match_ticker_or_name nd q := rfl

example :
    match_ticker_or_name
      [("Tesla Inc. Common Stock".data, "TSLA".data),
       ("Microsoft Corporation Common Stock".data, "MSFT".data)]
      "tsla".data
    = some (.TickerMatch "tsla".data "Tesla Inc. Common Stock".data "TSLA".data) := by
  decide

example :
    match_ticker_or_name
      [("Tesla Inc. Common Stock".data, "TSLA".data)]
      "Tesla Inc. Common Stock".data
    = some (.NameMatch "Tesla Inc. Common Stock".data "Tesla Inc. Common Stock".data
        "TSLA".data) := by
  decide

example :
    match_ticker_or_name
      [("Tesla Inc. Common Stock".data, "TSLA".data)]
      "Tesla".data
    = some (.NoMatch "Tesla".data) := by
  decide

end FinanceKG
